import Mathlib

/-
  Shallow embedding of the cryptolite-python repository.

  Modules embedded: cryptolite/byte_array.py, cryptolite/random.py,
  cryptolite/Keys.py.  Byte sequences are lists of natural numbers below
  256; Python exceptions are modelled with an Except value; the process
  random source is modelled as an explicit oracle argument.
-/

namespace Cryptolite

/-- The Python exceptions the embedded functions can raise. -/
inductive PyErr
  | valueError
  | binasciiError
  | typeError
  | unicodeDecodeError
deriving DecidableEq, Repr

/-! ## Hex codec (binascii.hexlify and bytearray.fromhex) -/

/-- Lowercase hex digit for a value below 16, as produced by binascii.hexlify. -/
def hexChar (n : Nat) : Char :=
  if n < 10 then Char.ofNat (48 + n) else Char.ofNat (87 + n)

/-- Hex digit value of a character; accepts 0-9, a-f and A-F. -/
def hexVal (c : Char) : Option Nat :=
  if 48 ≤ c.toNat ∧ c.toNat ≤ 57 then some (c.toNat - 48)
  else if 97 ≤ c.toNat ∧ c.toNat ≤ 102 then some (c.toNat - 87)
  else if 65 ≤ c.toNat ∧ c.toNat ≤ 70 then some (c.toNat - 55)
  else none

/-- ASCII whitespace as tested by Py_ISSPACE: space, tab, LF, VT, FF, CR. -/
def isPySpace (c : Char) : Bool :=
  c.toNat = 32 || c.toNat = 9 || c.toNat = 10 ||
  c.toNat = 11 || c.toNat = 12 || c.toNat = 13

/-- binascii.hexlify: each byte becomes two lowercase hex digits. -/
def toHexCore : List Nat → List Char
  | [] => []
  | b :: bs => hexChar (b / 16) :: hexChar (b % 16) :: toHexCore bs

/-- bytearray.fromhex: skips ASCII whitespace between byte pairs; each
pair is two hex digits with no whitespace between them; any other
character, or a dangling single digit, raises ValueError. -/
def fromhexCore : List Char → Except PyErr (List Nat)
  | [] => .ok []
  | c :: rest =>
    if isPySpace c then fromhexCore rest
    else
      match hexVal c with
      | none => .error .valueError
      | some hi =>
        match rest with
        | [] => .error .valueError
        | d :: rest2 =>
          match hexVal d with
          | none => .error .valueError
          | some lo =>
            match fromhexCore rest2 with
            | .ok bs => .ok ((hi * 16 + lo) :: bs)
            | .error e => .error e

/-! ## Base64 codec (base64.b64encode and base64.b64decode) -/

/-- The standard base64 alphabet. -/
def stdB64Chars : List Char :=
  "ABCDEFGHIJKLMNOPQRSTUVWXYZabcdefghijklmnopqrstuvwxyz0123456789+/".data

/-- Alphabet character for a 6-bit value. -/
def b64Char (n : Nat) : Char := stdB64Chars.getD n 'A'

/-- Value of a base64 alphabet character, none for anything else. -/
def b64DecodeChar (c : Char) : Option Nat :=
  if 65 ≤ c.toNat ∧ c.toNat ≤ 90 then some (c.toNat - 65)
  else if 97 ≤ c.toNat ∧ c.toNat ≤ 122 then some (c.toNat - 71)
  else if 48 ≤ c.toNat ∧ c.toNat ≤ 57 then some (c.toNat + 4)
  else if c = '+' then some 62
  else if c = '/' then some 63
  else none

/-- base64.b64encode: three input bytes become four alphabet characters;
a final group of one or two bytes is padded with = signs.  Shifts and
masks of the C implementation are written as division and remainder. -/
def b64encodeCore : List Nat → List Char
  | [] => []
  | [b1] =>
    [b64Char (b1 / 4), b64Char (b1 % 4 * 16), '=', '=']
  | [b1, b2] =>
    [b64Char (b1 / 4), b64Char (b1 % 4 * 16 + b2 / 16),
     b64Char (b2 % 16 * 4), '=']
  | b1 :: b2 :: b3 :: bs =>
    b64Char (b1 / 4) :: b64Char (b1 % 4 * 16 + b2 / 16) ::
    b64Char (b2 % 16 * 4 + b3 / 64) :: b64Char (b3 % 64) ::
    b64encodeCore bs

/-- binascii.a2b_base64 in its default non-strict mode: characters
outside the alphabet are discarded; a = sign after two or more data
characters of the current group ends the input (one = suffices at group
position three, two are needed at position two); at the end of input a
group of one data character, or an unterminated group of two or three,
raises binascii.Error.  State: position inside the current four-character
group, pending bits, and count of = signs seen since the last data
character. -/
def a2bBase64 : List Char → Nat → Nat → Nat → Except PyErr (List Nat)
  | [], quadPos, _, _ =>
    if quadPos = 0 then .ok [] else .error .binasciiError
  | c :: rest, quadPos, leftchar, pads =>
    if c = '=' then
      if 2 ≤ quadPos ∧ 4 ≤ quadPos + (pads + 1) then .ok []
      else a2bBase64 rest quadPos leftchar (pads + 1)
    else
      match b64DecodeChar c with
      | none => a2bBase64 rest quadPos leftchar pads
      | some v =>
        if quadPos = 0 then a2bBase64 rest 1 v 0
        else if quadPos = 1 then
          match a2bBase64 rest 2 (v % 16) 0 with
          | .ok bs => .ok ((leftchar * 4 + v / 16) :: bs)
          | .error e => .error e
        else if quadPos = 2 then
          match a2bBase64 rest 3 (v % 4) 0 with
          | .ok bs => .ok ((leftchar * 16 + v / 4) :: bs)
          | .error e => .error e
        else
          match a2bBase64 rest 0 0 0 with
          | .ok bs => .ok ((leftchar * 64 + v) :: bs)
          | .error e => .error e

/-! ## UTF-8 codec (str.encode and bytes.decode with "UTF8") -/

/-- UTF-8 encoding of one scalar value, written with division and
remainder for the bit operations. -/
def utf8EncodeChar (c : Char) : List Nat :=
  let n := c.toNat
  if n < 128 then [n]
  else if n < 2048 then [192 + n / 64, 128 + n % 64]
  else if n < 65536 then [224 + n / 4096, 128 + n / 64 % 64, 128 + n % 64]
  else [240 + n / 262144, 128 + n / 4096 % 64, 128 + n / 64 % 64, 128 + n % 64]

/-- str.encode with UTF-8. -/
def utf8Encode (cs : List Char) : List Nat :=
  (cs.map utf8EncodeChar).flatten

/-- Strict UTF-8 decoder, as bytes.decode with UTF-8: rejects stray
continuation bytes, overlong forms, surrogates and values above
U+10FFFF. -/
def utf8Decode : List Nat → Option (List Char)
  | [] => some []
  | b :: rest =>
    if b < 128 then
      (utf8Decode rest).map (fun cs => Char.ofNat b :: cs)
    else if b < 194 then none
    else if b < 224 then
      match rest with
      | b2 :: rest2 =>
        if 128 ≤ b2 ∧ b2 < 192 then
          (utf8Decode rest2).map
            (fun cs => Char.ofNat ((b - 192) * 64 + (b2 - 128)) :: cs)
        else none
      | [] => none
    else if b < 240 then
      match rest with
      | b2 :: b3 :: rest3 =>
        if (128 ≤ b2 ∧ b2 < 192) ∧ (128 ≤ b3 ∧ b3 < 192) ∧
           (b = 224 → 160 ≤ b2) ∧ (b = 237 → b2 < 160) then
          (utf8Decode rest3).map
            (fun cs =>
              Char.ofNat ((b - 224) * 4096 + (b2 - 128) * 64 + (b3 - 128)) :: cs)
        else none
      | _ => none
    else if b < 245 then
      match rest with
      | b2 :: b3 :: b4 :: rest4 =>
        if (128 ≤ b2 ∧ b2 < 192) ∧ (128 ≤ b3 ∧ b3 < 192) ∧
           (128 ≤ b4 ∧ b4 < 192) ∧
           (b = 240 → 144 ≤ b2) ∧ (b = 244 → b2 < 144) then
          (utf8Decode rest4).map
            (fun cs =>
              Char.ofNat ((b - 240) * 262144 + (b2 - 128) * 4096 +
                          (b3 - 128) * 64 + (b4 - 128)) :: cs)
        else none
      | _ => none
    else none

/-! ## Module byte_array: the six conversion functions -/

/-- byte_array.to_hex_string: none for none, else binascii.hexlify. -/
def to_hex_string : Option (List Nat) → Option String
  | none => none
  | some bs => some (String.mk (toHexCore bs))

/-- byte_array.from_hex_string: none for none, else bytearray.fromhex. -/
def from_hex_string : Option String → Except PyErr (Option (List Nat))
  | none => .ok none
  | some s =>
    match fromhexCore s.data with
    | .ok bs => .ok (some bs)
    | .error e => .error e

/-- byte_array.to_base64_string: none for none, else base64.b64encode. -/
def to_base64_string : Option (List Nat) → Option String
  | none => none
  | some bs => some (String.mk (b64encodeCore bs))

/-- byte_array.from_base64_string: none for none, else base64.b64decode,
which first encodes the string as ASCII (ValueError on a non-ASCII
character) and then runs the non-strict base64 decoder. -/
def from_base64_string : Option String → Except PyErr (Option (List Nat))
  | none => .ok none
  | some s =>
    if s.data.all (fun c => c.toNat < 128) then
      match a2bBase64 s.data 0 0 0 with
      | .ok bs => .ok (some bs)
      | .error e => .error e
    else .error .valueError

/-- byte_array.to_string: none for none, else bytes.decode with UTF-8,
raising UnicodeDecodeError on invalid byte sequences. -/
def to_string : Option (List Nat) → Except PyErr (Option String)
  | none => .ok none
  | some bs =>
    match utf8Decode bs with
    | some cs => .ok (some (String.mk cs))
    | none => .error .unicodeDecodeError

/-- byte_array.from_string: none for none, else str.encode with UTF-8. -/
def from_string : Option String → Option (List Nat)
  | none => none
  | some s => some (utf8Encode s.data)

/-! ## SHA-256 (FIPS 180-4), the hash underlying the PBKDF2 call of
Keys.generate_secret_key.  32-bit words are naturals reduced modulo
2 to the 32. -/

/-- Reduce to a 32-bit word. -/
def w32 (x : Nat) : Nat := x % 4294967296

/-- Right rotation of a 32-bit word, written with division and
remainder. -/
def rotr (n x : Nat) : Nat := x / 2 ^ n + x % 2 ^ n * 2 ^ (32 - n)

/-- Logical right shift. -/
def shr (n x : Nat) : Nat := x / 2 ^ n

/-- The choice function Ch. -/
def ch (x y z : Nat) : Nat := (x &&& y) ^^^ ((x ^^^ 4294967295) &&& z)

/-- The majority function Maj. -/
def maj (x y z : Nat) : Nat := (x &&& y) ^^^ (x &&& z) ^^^ (y &&& z)

/-- Upper-case sigma 0. -/
def bigS0 (x : Nat) : Nat := rotr 2 x ^^^ rotr 13 x ^^^ rotr 22 x

/-- Upper-case sigma 1. -/
def bigS1 (x : Nat) : Nat := rotr 6 x ^^^ rotr 11 x ^^^ rotr 25 x

/-- Lower-case sigma 0. -/
def smallS0 (x : Nat) : Nat := rotr 7 x ^^^ rotr 18 x ^^^ shr 3 x

/-- Lower-case sigma 1. -/
def smallS1 (x : Nat) : Nat := rotr 17 x ^^^ rotr 19 x ^^^ shr 10 x

/-- The 64 round constants. -/
def sha256K : List Nat :=
  [1116352408, 1899447441, 3049323471, 3921009573,
   961987163, 1508970993, 2453635748, 2870763221,
   3624381080, 310598401, 607225278, 1426881987,
   1925078388, 2162078206, 2614888103, 3248222580,
   3835390401, 4022224774, 264347078, 604807628,
   770255983, 1249150122, 1555081692, 1996064986,
   2554220882, 2821834349, 2952996808, 3210313671,
   3336571891, 3584528711, 113926993, 338241895,
   666307205, 773529912, 1294757372, 1396182291,
   1695183700, 1986661051, 2177026350, 2456956037,
   2730485921, 2820302411, 3259730800, 3345764771,
   3516065817, 3600352804, 4094571909, 275423344,
   430227734, 506948616, 659060556, 883997877,
   958139571, 1322822218, 1537002063, 1747873779,
   1955562222, 2024104815, 2227730452, 2361852424,
   2428436474, 2756734187, 3204031479, 3329325298]

/-- The eight-word working state of the compression function. -/
structure Hash8 where
  a : Nat
  b : Nat
  c : Nat
  d : Nat
  e : Nat
  f : Nat
  g : Nat
  h : Nat

/-- Initial hash value. -/
def sha256Init : Hash8 :=
  ⟨1779033703, 3144134277, 1013904242, 2773480762,
   1359893119, 2600822924, 528734635, 1541459225⟩

/-- Big-endian bytes of a 32-bit word. -/
def be32 (w : Nat) : List Nat :=
  [w / 16777216 % 256, w / 65536 % 256, w / 256 % 256, w % 256]

/-- Big-endian bytes of a 64-bit length field. -/
def be64 (n : Nat) : List Nat :=
  [n / 2 ^ 56 % 256, n / 2 ^ 48 % 256, n / 2 ^ 40 % 256, n / 2 ^ 32 % 256,
   n / 2 ^ 24 % 256, n / 2 ^ 16 % 256, n / 2 ^ 8 % 256, n % 256]

/-- Big-endian 32-bit words of a byte list. -/
def toWords : List Nat → List Nat
  | b1 :: b2 :: b3 :: b4 :: rest =>
    (b1 * 16777216 + b2 * 65536 + b3 * 256 + b4) :: toWords rest
  | _ => []

/-- Merkle-Damgard padding: a 0x80 byte, zeros up to 56 modulo 64, then
the bit length on 64 bits big-endian. -/
def sha256Pad (msg : List Nat) : List Nat :=
  msg ++ 128 :: (List.replicate ((64 + 55 - msg.length % 64) % 64) 0 ++
    be64 (8 * msg.length))

/-- Split a byte list into 64-byte blocks. -/
def chunks64 (l : List Nat) : List (List Nat) :=
  match l with
  | [] => []
  | b :: bs => (b :: bs).take 64 :: chunks64 ((b :: bs).drop 64)
termination_by l.length
decreasing_by simp; omega

/-- Append one word of the message schedule. -/
def sched1 (ws : List Nat) : List Nat :=
  let n := ws.length
  ws ++ [w32 (smallS1 (ws.getD (n - 2) 0) + ws.getD (n - 7) 0 +
    smallS0 (ws.getD (n - 15) 0) + ws.getD (n - 16) 0)]

/-- Iterate the schedule extension. -/
def schedule (ws : List Nat) : Nat → List Nat
  | 0 => ws
  | k + 1 => schedule (sched1 ws) k

/-- The 64-entry message schedule of one block. -/
def msgSchedule (block : List Nat) : List Nat := schedule (toWords block) 48

/-- One round of the compression function. -/
def compressStep (st : Hash8) (kw : Nat × Nat) : Hash8 :=
  let t1 := w32 (st.h + bigS1 st.e + ch st.e st.f st.g + kw.1 + kw.2)
  let t2 := w32 (bigS0 st.a + maj st.a st.b st.c)
  ⟨w32 (t1 + t2), st.a, st.b, st.c, w32 (st.d + t1), st.e, st.f, st.g⟩

/-- Compress one 64-byte block into the running state. -/
def compressBlock (st : Hash8) (block : List Nat) : Hash8 :=
  let fin := (List.zip sha256K (msgSchedule block)).foldl compressStep st
  ⟨w32 (st.a + fin.a), w32 (st.b + fin.b), w32 (st.c + fin.c),
   w32 (st.d + fin.d), w32 (st.e + fin.e), w32 (st.f + fin.f),
   w32 (st.g + fin.g), w32 (st.h + fin.h)⟩

/-- Serialize the final state, eight words of four bytes each. -/
def hash8Bytes (st : Hash8) : List Nat :=
  be32 st.a ++ be32 st.b ++ be32 st.c ++ be32 st.d ++
  be32 st.e ++ be32 st.f ++ be32 st.g ++ be32 st.h

/-- SHA-256 of a byte list. -/
def sha256 (msg : List Nat) : List Nat :=
  hash8Bytes ((chunks64 (sha256Pad msg)).foldl compressBlock sha256Init)

/-! ## HMAC-SHA256 and PBKDF2 (RFC 2104 and RFC 2898), the key
derivation performed by the external cryptography library in
Keys.generate_secret_key. -/

/-- HMAC with SHA-256: block size 64 bytes, inner pad 0x36, outer pad
0x5c; a key longer than the block is first hashed. -/
def hmacSha256 (key msg : List Nat) : List Nat :=
  let k0 := if 64 < key.length then sha256 key else key
  let kp := k0 ++ List.replicate (64 - k0.length) 0
  sha256 ((kp.map (fun b => b ^^^ 92)) ++
    sha256 ((kp.map (fun b => b ^^^ 54)) ++ msg))

/-- The iterated xor chain of one PBKDF2 block: given the remaining
iteration count, the previous U value and the running xor. -/
def pbkdf2Iter (password : List Nat) : Nat → List Nat → List Nat → List Nat
  | 0, _, acc => acc
  | k + 1, u, acc =>
    let u2 := hmacSha256 password u
    pbkdf2Iter password k u2 (List.zipWith (fun x y => x ^^^ y) acc u2)

/-- Block number i of PBKDF2: U1 = PRF(password, salt with i appended
big-endian), then c - 1 further PRF applications, all xored together. -/
def pbkdf2Block (password salt : List Nat) (c i : Nat) : List Nat :=
  let u1 := hmacSha256 password (salt ++ be32 i)
  pbkdf2Iter password (c - 1) u1 u1

/-- PBKDF2 with HMAC-SHA256: as many 32-byte blocks as needed, truncated
to the requested key length. -/
def pbkdf2HmacSha256 (password salt : List Nat) (c dkLen : Nat) : List Nat :=
  (((List.range ((dkLen + 31) / 32)).map
    (fun i => pbkdf2Block password salt c (i + 1))).flatten).take dkLen

/-! ## Module random: token, salt and password generation.  The process
random source (os.urandom, secrets.choice) is modelled as an oracle
argument giving one natural number per draw. -/

/-- random.TOKEN_BITS. -/
def TOKEN_BITS : Nat := 256

/-- random.SALT_BYTES. -/
def SALT_BYTES : Nat := 16

/-- random._token_length_bytes = TOKEN_BITS // 8. -/
def token_length_bytes : Nat := TOKEN_BITS / 8

/-- random.passwordCharacters = string.ascii_letters + string.digits. -/
def passwordCharacters : List Char :=
  "abcdefghijklmnopqrstuvwxyzABCDEFGHIJKLMNOPQRSTUVWXYZ0123456789".data

/-- random.byte_array: length bytes from os.urandom, each below 256. -/
def byte_array (length : Nat) (g : Nat → Nat) : List Nat :=
  (List.range length).map (fun i => g i % 256)

/-- random.token: 32 random bytes rendered through to_hex_string. -/
def token (g : Nat → Nat) : Option String :=
  to_hex_string (some (byte_array token_length_bytes g))

/-- random.password: one secrets.choice draw from passwordCharacters per
loop step of range(length); a Python range over a negative count is
empty, hence the toNat. -/
def password (length : Int) (g : Nat → Nat) : String :=
  String.mk ((List.range length.toNat).map
    (fun i => passwordCharacters.getD (g i % passwordCharacters.length) 'A'))

/-- random.salt: SALT_BYTES random bytes rendered through
to_base64_string. -/
def salt (g : Nat → Nat) : Option String :=
  to_base64_string (some (byte_array SALT_BYTES g))

/-! ## Module Keys: key generation. -/

/-- Keys.SYMMETRIC_KEY_SIZE. -/
def SYMMETRIC_KEY_SIZE : Nat := 256

/-- Keys.SYMMETRIC_PASSWORD_ITERATIONS. -/
def SYMMETRIC_PASSWORD_ITERATIONS : Nat := 1024

/-- Keys.new_secret_key: os.urandom(SYMMETRIC_KEY_SIZE // 8). -/
def new_secret_key (g : Nat → Nat) : List Nat :=
  byte_array (SYMMETRIC_KEY_SIZE / 8) g

/-- Keys.generate_secret_key: none for a none password; otherwise the
salt is decoded with byte_array.from_base64_string (bytes(None) raises
TypeError when that step yields None), and the key is derived with
PBKDF2-HMAC-SHA256, output length SYMMETRIC_KEY_SIZE // 8, iteration
count SYMMETRIC_PASSWORD_ITERATIONS, over the UTF-8 bytes of the
password. -/
def generate_secret_key (password salt : Option String) :
    Except PyErr (Option (List Nat)) :=
  match password with
  | none => .ok none
  | some pwd =>
    match from_base64_string salt with
    | .error e => .error e
    | .ok none => .error .typeError
    | .ok (some saltBytes) =>
      .ok (some (pbkdf2HmacSha256 (utf8Encode pwd.data) saltBytes
        SYMMETRIC_PASSWORD_ITERATIONS (SYMMETRIC_KEY_SIZE / 8)))

/-! ## Helper lemmas: hex codec -/

/-- hexVal inverts hexChar on values below 16. -/
theorem hexVal_hexChar : ∀ n, n < 16 → hexVal (hexChar n) = some n := by decide

/-- hexChar never produces whitespace. -/
theorem isPySpace_hexChar : ∀ n, n < 16 → isPySpace (hexChar n) = false := by decide

/-- Decoding inverts encoding for the hex codec. -/
theorem fromhex_tohex : ∀ (bs : List Nat), (∀ b ∈ bs, b < 256) →
    fromhexCore (toHexCore bs) = .ok bs := by
  intro bs
  induction bs with
  | nil => intro _; rfl
  | cons b bs ih =>
    intro h
    have hb : b < 256 := h b (List.mem_cons_self b bs)
    have h1 : b / 16 < 16 := by omega
    have h2 : b % 16 < 16 := by omega
    have ihh := ih (fun x hx => h x (List.mem_cons_of_mem b hx))
    have harith : b / 16 * 16 + b % 16 = b := by omega
    simp [toHexCore, fromhexCore, isPySpace_hexChar _ h1, hexVal_hexChar _ h1,
      hexVal_hexChar _ h2, ihh, harith]

/-- Length of a hex rendering. -/
theorem toHexCore_length : ∀ bs : List Nat, (toHexCore bs).length = 2 * bs.length := by
  intro bs
  induction bs with
  | nil => rfl
  | cons b bs ih => simp [toHexCore, ih]; omega

/-- On whitespace-free input, the hex decoder succeeds exactly when the
length is even and every character is a hex digit, and otherwise raises
ValueError. -/
theorem fromhex_nows : ∀ (s : List Char), (∀ c ∈ s, isPySpace c = false) →
    ((s.length % 2 = 0 ∧ ∀ c ∈ s, (hexVal c).isSome = true) →
      ∃ bs, fromhexCore s = .ok bs) ∧
    (¬(s.length % 2 = 0 ∧ ∀ c ∈ s, (hexVal c).isSome = true) →
      fromhexCore s = .error .valueError)
  | [], _ => by
    constructor
    · intro _; exact ⟨[], rfl⟩
    · intro h; exact absurd ⟨rfl, by simp⟩ h
  | [c], hws => by
    have hwc : isPySpace c = false := hws c (by simp)
    constructor
    · rintro ⟨h1, -⟩; simp at h1
    · intro _
      cases hv : hexVal c with
      | none => simp [fromhexCore, hwc, hv]
      | some x => simp [fromhexCore, hwc, hv]
  | c :: d :: rest, hws => by
    have hwc : isPySpace c = false := hws c (by simp)
    have hwd : isPySpace d = false := hws d (by simp)
    have ihr := fromhex_nows rest (fun x hx => hws x (by simp [hx]))
    cases hv1 : hexVal c with
    | none =>
      constructor
      · rintro ⟨-, hall⟩
        have := hall c (by simp)
        rw [hv1] at this
        simp at this
      · intro _; simp [fromhexCore, hwc, hv1]
    | some hi =>
      cases hv2 : hexVal d with
      | none =>
        constructor
        · rintro ⟨-, hall⟩
          have := hall d (by simp)
          rw [hv2] at this
          simp at this
        · intro _; simp [fromhexCore, hwc, hv1, hv2]
      | some lo =>
        constructor
        · rintro ⟨hlen, hall⟩
          obtain ⟨bs, hbs⟩ := ihr.1 ⟨by simp at hlen ⊢; omega,
            fun x hx => hall x (by simp [hx])⟩
          exact ⟨(hi * 16 + lo) :: bs, by simp [fromhexCore, hwc, hv1, hv2, hbs]⟩
        · intro hneg
          have hrneg : ¬(rest.length % 2 = 0 ∧ ∀ x ∈ rest, (hexVal x).isSome = true) := by
            rintro ⟨ha, hb⟩
            apply hneg
            refine ⟨by simp; omega, ?_⟩
            intro x hx
            rcases List.mem_cons.mp hx with rfl | hx2
            · simp [hv1]
            · rcases List.mem_cons.mp hx2 with rfl | hx3
              · simp [hv2]
              · exact hb x hx3
          have herr := ihr.2 hrneg
          simp [fromhexCore, hwc, hv1, hv2, herr]

/-- Decoding distributes over appending after a fully decoded prefix. -/
theorem fromhex_append : ∀ (u : List Char) (a : List Nat), fromhexCore u = .ok a →
    ∀ w, fromhexCore (u ++ w) = Except.map (fun b => a ++ b) (fromhexCore w)
  | [], a, h, w => by
    obtain rfl : a = [] := by cases h; rfl
    cases hw : fromhexCore w <;> simp [hw, Except.map]
  | c :: rest, a, h, w => by
    cases hsp : isPySpace c with
    | true =>
      have hrec : fromhexCore rest = .ok a := by
        simpa [fromhexCore, hsp] using h
      have := fromhex_append rest a hrec w
      simpa [fromhexCore, hsp] using this
    | false =>
      cases hv1 : hexVal c with
      | none => simp [fromhexCore, hsp, hv1] at h
      | some hi =>
        cases rest with
        | nil => simp [fromhexCore, hsp, hv1] at h
        | cons d rest2 =>
          cases hv2 : hexVal d with
          | none => simp [fromhexCore, hsp, hv1, hv2] at h
          | some lo =>
            cases hrec : fromhexCore rest2 with
            | error e => simp [fromhexCore, hsp, hv1, hv2, hrec] at h
            | ok bs =>
              have hform : fromhexCore (c :: d :: rest2) = .ok ((hi * 16 + lo) :: bs) := by
                simp [fromhexCore, hsp, hv1, hv2, hrec]
              obtain rfl : a = (hi * 16 + lo) :: bs :=
                (Except.ok.inj (hform.symm.trans h)).symm
              have ih := fromhex_append rest2 bs hrec w
              cases hw : fromhexCore w with
              | error e =>
                rw [hw] at ih
                simp [fromhexCore, hsp, hv1, hv2, ih, hw, Except.map]
              | ok b2 =>
                rw [hw] at ih
                simp [fromhexCore, hsp, hv1, hv2, ih, hw, Except.map]

/-! ## Helper lemmas: base64 codec -/

/-- b64DecodeChar inverts b64Char on values below 64. -/
theorem b64DecodeChar_b64Char : ∀ n, n < 64 → b64DecodeChar (b64Char n) = some n := by
  decide

/-- Alphabet characters are not the padding character. -/
theorem b64Char_ne_pad : ∀ n, n < 64 → ¬ b64Char n = '=' := by decide

/-- Alphabet characters are ASCII. -/
theorem b64Char_lt128 : ∀ n, n < 64 → (b64Char n).toNat < 128 := by decide

/-- b64Char is ASCII for every index, the out-of-range default
included. -/
theorem b64Char_lt128_any : ∀ n, (b64Char n).toNat < 128 := by
  intro n
  by_cases h : n < 64
  · exact b64Char_lt128 n h
  · have hd : b64Char n = 'A' := by
      unfold b64Char
      apply List.getD_eq_default
      have hlen : stdB64Chars.length = 64 := rfl
      omega
    rw [hd]
    decide

/-- Values decoded from an alphabet character are below 64. -/
theorem b64DecodeChar_lt64 {c : Char} {v : Nat} (h : b64DecodeChar c = some v) :
    v < 64 := by
  simp only [b64DecodeChar] at h
  split_ifs at h with h1 h2 h3 h4 h5
  · have hv := Option.some.inj h; omega
  · have hv := Option.some.inj h; omega
  · have hv := Option.some.inj h; omega
  · have hv := Option.some.inj h; omega
  · have hv := Option.some.inj h; omega

/-- A character with a decode value is not the padding character. -/
theorem b64DecodeChar_ne_pad {c : Char} {v : Nat} (h : b64DecodeChar c = some v) :
    ¬ c = '=' := by
  intro he
  rw [he] at h
  have : b64DecodeChar ('=') = none := by decide
  rw [this] at h
  exact Option.noConfusion h

/-- A character with a decode value is ASCII. -/
theorem b64DecodeChar_ascii {c : Char} {v : Nat} (h : b64DecodeChar c = some v) :
    c.toNat < 128 := by
  simp only [b64DecodeChar] at h
  split_ifs at h with h1 h2 h3 h4 h5
  · omega
  · omega
  · omega
  · subst h4; decide
  · subst h5; decide

/-- Decoder step: a data character at group position 0. -/
theorem a2b_data0 {c : Char} {v : Nat} (hne : ¬ c = '=') (hc : b64DecodeChar c = some v)
    (rest : List Char) (lc pads : Nat) :
    a2bBase64 (c :: rest) 0 lc pads = a2bBase64 rest 1 v 0 := by
  simp [a2bBase64, hne, hc]

/-- Decoder step: a data character at group position 1 emits one byte. -/
theorem a2b_data1 {c : Char} {v : Nat} (hne : ¬ c = '=') (hc : b64DecodeChar c = some v)
    (rest : List Char) (lc pads : Nat) :
    a2bBase64 (c :: rest) 1 lc pads =
      Except.map (fun bs => (lc * 4 + v / 16) :: bs) (a2bBase64 rest 2 (v % 16) 0) := by
  simp only [a2bBase64, hne, hc]
  cases hrec : a2bBase64 rest 2 (v % 16) 0 <;> simp [Except.map]

/-- Decoder step: a data character at group position 2 emits one byte. -/
theorem a2b_data2 {c : Char} {v : Nat} (hne : ¬ c = '=') (hc : b64DecodeChar c = some v)
    (rest : List Char) (lc pads : Nat) :
    a2bBase64 (c :: rest) 2 lc pads =
      Except.map (fun bs => (lc * 16 + v / 4) :: bs) (a2bBase64 rest 3 (v % 4) 0) := by
  simp only [a2bBase64, hne, hc]
  cases hrec : a2bBase64 rest 3 (v % 4) 0 <;> simp [Except.map]

/-- Decoder step: a data character at group position 3 emits one byte. -/
theorem a2b_data3 {c : Char} {v : Nat} (hne : ¬ c = '=') (hc : b64DecodeChar c = some v)
    (rest : List Char) (lc pads : Nat) :
    a2bBase64 (c :: rest) 3 lc pads =
      Except.map (fun bs => (lc * 64 + v) :: bs) (a2bBase64 rest 0 0 0) := by
  simp only [a2bBase64, hne, hc]
  cases hrec : a2bBase64 rest 0 0 0 <;> simp [Except.map]

/-- Decoder step: a padding character that completes a group ends the
input. -/
theorem a2b_pad_done (rest : List Char) (qp lc pads : Nat)
    (h : 2 ≤ qp ∧ 4 ≤ qp + (pads + 1)) :
    a2bBase64 ('=' :: rest) qp lc pads = .ok [] := by
  simp [a2bBase64, h.1, h.2]

/-- Decoder step: a padding character that does not yet complete a group
is counted and skipped. -/
theorem a2b_pad_more (rest : List Char) (qp lc pads : Nat)
    (h : ¬(2 ≤ qp ∧ 4 ≤ qp + (pads + 1))) :
    a2bBase64 ('=' :: rest) qp lc pads = a2bBase64 rest qp lc (pads + 1) := by
  simp [a2bBase64]
  intro h2 h4
  exact absurd ⟨h2, by omega⟩ h

/-- Decoding inverts encoding for the base64 codec. -/
theorem a2b_b64encode : ∀ (bs : List Nat), (∀ b ∈ bs, b < 256) →
    a2bBase64 (b64encodeCore bs) 0 0 0 = .ok bs
  | [], _ => rfl
  | [b1], h => by
    have hb1 : b1 < 256 := h b1 (by simp)
    have h1 : b1 / 4 < 64 := by omega
    have h2 : b1 % 4 * 16 < 64 := by omega
    show a2bBase64 [b64Char (b1 / 4), b64Char (b1 % 4 * 16), '=', '='] 0 0 0 = .ok [b1]
    rw [a2b_data0 (b64Char_ne_pad _ h1) (b64DecodeChar_b64Char _ h1)]
    rw [a2b_data1 (b64Char_ne_pad _ h2) (b64DecodeChar_b64Char _ h2)]
    rw [a2b_pad_more _ _ _ _ (by omega)]
    rw [a2b_pad_done _ _ _ _ (by omega)]
    simp [Except.map]
    omega
  | [b1, b2], h => by
    have hb1 : b1 < 256 := h b1 (by simp)
    have hb2 : b2 < 256 := h b2 (by simp)
    have h1 : b1 / 4 < 64 := by omega
    have h2 : b1 % 4 * 16 + b2 / 16 < 64 := by omega
    have h3 : b2 % 16 * 4 < 64 := by omega
    show a2bBase64 [b64Char (b1 / 4), b64Char (b1 % 4 * 16 + b2 / 16),
      b64Char (b2 % 16 * 4), '='] 0 0 0 = .ok [b1, b2]
    rw [a2b_data0 (b64Char_ne_pad _ h1) (b64DecodeChar_b64Char _ h1)]
    rw [a2b_data1 (b64Char_ne_pad _ h2) (b64DecodeChar_b64Char _ h2)]
    rw [a2b_data2 (b64Char_ne_pad _ h3) (b64DecodeChar_b64Char _ h3)]
    rw [a2b_pad_done _ _ _ _ (by omega)]
    simp [Except.map]
    omega
  | b1 :: b2 :: b3 :: rest, h => by
    have hb1 : b1 < 256 := h b1 (by simp)
    have hb2 : b2 < 256 := h b2 (by simp)
    have hb3 : b3 < 256 := h b3 (by simp)
    have h1 : b1 / 4 < 64 := by omega
    have h2 : b1 % 4 * 16 + b2 / 16 < 64 := by omega
    have h3 : b2 % 16 * 4 + b3 / 64 < 64 := by omega
    have h4 : b3 % 64 < 64 := by omega
    have ih := a2b_b64encode rest (fun x hx => h x (by simp [hx]))
    show a2bBase64 (b64Char (b1 / 4) :: b64Char (b1 % 4 * 16 + b2 / 16) ::
      b64Char (b2 % 16 * 4 + b3 / 64) :: b64Char (b3 % 64) ::
      b64encodeCore rest) 0 0 0 = .ok (b1 :: b2 :: b3 :: rest)
    rw [a2b_data0 (b64Char_ne_pad _ h1) (b64DecodeChar_b64Char _ h1)]
    rw [a2b_data1 (b64Char_ne_pad _ h2) (b64DecodeChar_b64Char _ h2)]
    rw [a2b_data2 (b64Char_ne_pad _ h3) (b64DecodeChar_b64Char _ h3)]
    rw [a2b_data3 (b64Char_ne_pad _ h4) (b64DecodeChar_b64Char _ h4)]
    rw [ih]
    simp [Except.map]
    omega

/-- Every character produced by the base64 encoder is ASCII. -/
theorem b64encode_ascii : ∀ (bs : List Nat), ∀ c ∈ b64encodeCore bs, c.toNat < 128
  | [], _, hc => by simp [b64encodeCore] at hc
  | [b1], c, hc => by
    simp [b64encodeCore] at hc
    rcases hc with rfl | rfl | rfl
    · exact b64Char_lt128_any _
    · exact b64Char_lt128_any _
    · decide
  | [b1, b2], c, hc => by
    simp [b64encodeCore] at hc
    rcases hc with rfl | rfl | rfl | rfl
    · exact b64Char_lt128_any _
    · exact b64Char_lt128_any _
    · exact b64Char_lt128_any _
    · decide
  | b1 :: b2 :: b3 :: rest, c, hc => by
    simp only [b64encodeCore, List.mem_cons] at hc
    rcases hc with rfl | rfl | rfl | rfl | hc2
    · exact b64Char_lt128_any _
    · exact b64Char_lt128_any _
    · exact b64Char_lt128_any _
    · exact b64Char_lt128_any _
    · exact b64encode_ascii rest c hc2

/-- On input made only of alphabet characters, the base64 decoder from
group position qp succeeds when qp plus the input length is a multiple
of four and raises binascii.Error otherwise. -/
theorem a2b_alpha : ∀ (s : List Char), (∀ c ∈ s, (b64DecodeChar c).isSome = true) →
    ∀ qp lc pads : Nat, qp < 4 →
    (((qp + s.length) % 4 = 0 → ∃ bs, a2bBase64 s qp lc pads = .ok bs) ∧
     ((qp + s.length) % 4 ≠ 0 → a2bBase64 s qp lc pads = .error .binasciiError)) := by
  intro s
  induction s with
  | nil =>
    intro _ qp lc pads hqp
    constructor
    · intro h0
      simp at h0
      have : qp = 0 := by omega
      subst this
      exact ⟨[], rfl⟩
    · intro hne
      simp at hne
      have : ¬ qp = 0 := by omega
      simp [a2bBase64, this]
  | cons c rest ih =>
    intro hall qp lc pads hqp
    have hc : (b64DecodeChar c).isSome = true := hall c (by simp)
    obtain ⟨v, hv⟩ := Option.isSome_iff_exists.mp hc
    have hne := b64DecodeChar_ne_pad hv
    have ihr := ih (fun x hx => hall x (by simp [hx]))
    interval_cases qp
    · constructor
      · intro h0
        rw [a2b_data0 hne hv]
        exact (ihr 1 v 0 (by omega)).1 (by simp at h0 ⊢; omega)
      · intro hne0
        rw [a2b_data0 hne hv]
        exact (ihr 1 v 0 (by omega)).2 (by simp at hne0 ⊢; omega)
    · constructor
      · intro h0
        rw [a2b_data1 hne hv]
        obtain ⟨bs, hbs⟩ := (ihr 2 (v % 16) 0 (by omega)).1 (by simp at h0 ⊢; omega)
        exact ⟨_, by rw [hbs]; rfl⟩
      · intro hne0
        rw [a2b_data1 hne hv]
        rw [(ihr 2 (v % 16) 0 (by omega)).2 (by simp at hne0 ⊢; omega)]
        rfl
    · constructor
      · intro h0
        rw [a2b_data2 hne hv]
        obtain ⟨bs, hbs⟩ := (ihr 3 (v % 4) 0 (by omega)).1 (by simp at h0 ⊢; omega)
        exact ⟨_, by rw [hbs]; rfl⟩
      · intro hne0
        rw [a2b_data2 hne hv]
        rw [(ihr 3 (v % 4) 0 (by omega)).2 (by simp at hne0 ⊢; omega)]
        rfl
    · constructor
      · intro h0
        rw [a2b_data3 hne hv]
        obtain ⟨bs, hbs⟩ := (ihr 0 0 0 (by omega)).1 (by simp at h0 ⊢; omega)
        exact ⟨_, by rw [hbs]; rfl⟩
      · intro hne0
        rw [a2b_data3 hne hv]
        rw [(ihr 0 0 0 (by omega)).2 (by simp at hne0 ⊢; omega)]
        rfl

/-! ## Claim theorems -/

/-- C5: each of the six byte-encoding functions maps an absent input to
an absent result, raising no exception. -/
theorem claim_C5 :
    to_hex_string none = none ∧ from_hex_string none = .ok none ∧
    to_base64_string none = none ∧ from_base64_string none = .ok none ∧
    to_string none = .ok none ∧ from_string none = none :=
  ⟨rfl, rfl, rfl, rfl, rfl, rfl⟩

/-- C6: with an absent password, generate_secret_key returns absent for
every salt argument, malformed ones included, rather than failing. -/
theorem claim_C6 : ∀ s : Option String, generate_secret_key none s = .ok none :=
  fun _ => rfl

/-- C3 counterexample: from_hex_string on the empty string succeeds with
the empty byte array, so the claim that an empty input fails with a
decoding error is false. -/
theorem claim_C3_counterexample : from_hex_string (some "") = .ok (some []) := rfl

/-- C3 amended: on whitespace-free input, from_hex_string fails with
ValueError exactly when the string has odd length or contains a
character that is not a hex digit (lowercase, uppercase and digits all
being accepted); the empty string decodes to the empty byte array. -/
theorem claim_C3 :
    (∀ s : String, (∀ c ∈ s.data, isPySpace c = false) →
      (from_hex_string (some s) = .error .valueError ↔
        ¬(s.data.length % 2 = 0 ∧ ∀ c ∈ s.data, (hexVal c).isSome = true))) ∧
    from_hex_string (some "") = .ok (some []) := by
  constructor
  · intro s hws
    have h := fromhex_nows s.data hws
    by_cases hcond : s.data.length % 2 = 0 ∧ ∀ c ∈ s.data, (hexVal c).isSome = true
    · obtain ⟨bs, hbs⟩ := h.1 hcond
      have heq : from_hex_string (some s) = .ok (some bs) := by
        simp [from_hex_string, hbs]
      rw [heq]
      constructor
      · intro hcontra; exact absurd hcontra (by simp)
      · intro hneg; exact absurd hcond hneg
    · have herr := h.2 hcond
      have heq : from_hex_string (some s) = .error .valueError := by
        simp [from_hex_string, herr]
      rw [heq]
      exact iff_of_true rfl hcond
  · rfl

/-- C3 witness: the two-character string 0x, whose second character is
not a hex digit, fails with ValueError. -/
theorem claim_C3_witness : from_hex_string (some "0x") = .error .valueError :=
  (claim_C3.1 "0x" (by decide)).mpr (by decide)

/-- C10: a hex string formed of a fully decodable prefix, an ASCII
whitespace character and a decodable tail decodes to the concatenation
of the two byte lists: whitespace between byte pairs is skipped, not an
error. -/
theorem claim_C10 : ∀ (s : String) (u : List Char) (c : Char) (v : List Char)
    (a : List Nat), s.data = u ++ c :: v →
    isPySpace c = true → fromhexCore u = .ok a →
    ∀ b, fromhexCore v = .ok b →
    from_hex_string (some s) = .ok (some (a ++ b)) := by
  intro s u c v a hdata hsp hu b hb
  have h1 := fromhex_append u a hu (c :: v)
  have hc : fromhexCore (c :: v) = fromhexCore v := by
    simp [fromhexCore, hsp]
  have : fromhexCore s.data = .ok (a ++ b) := by
    rw [hdata, h1, hc, hb]; rfl
  simp [from_hex_string, this]

/-- C10 witness: the spaced string de ad be ef decodes to the four bytes
of deadbeef. -/
theorem claim_C10_witness :
    from_hex_string (some "de ad be ef") = .ok (some ([222] ++ [173, 190, 239])) :=
  claim_C10 "de ad be ef" "de".data ' ' "ad be ef".data [222] (by rfl) (by decide)
    (by rfl) [173, 190, 239] (by rfl)

/-- C8 counterexample: for the negative length -1, password returns the
empty string, a normal result, so no input-validation error is
reported. -/
theorem claim_C8_counterexample : password (-1) (fun _ => 0) = "" := rfl

/-- C8 amended: for every negative length, password returns the empty
string (the Python range over a negative count is empty), performing no
draws from the random source; no input-validation error is raised. -/
theorem claim_C8 : ∀ (n : Int) (g : Nat → Nat), n < 0 → password n g = "" := by
  intro n g h
  have h0 : n.toNat = 0 := Int.toNat_of_nonpos (le_of_lt h)
  simp [password, h0]

/-- C8 witness: the amended statement at length -2. -/
theorem claim_C8_witness : password (-2) (fun _ => 0) = "" :=
  claim_C8 (-2) (fun _ => 0) (by decide)

/-- C9: every token is a 64-character hex string that from_hex_string
decodes back to the underlying 32 random bytes (256 bits). -/
theorem claim_C9 : ∀ g : Nat → Nat,
    ∃ s : String, token g = some s ∧ s.length = 64 ∧
      from_hex_string (some s) = .ok (some (byte_array 32 g)) ∧
      (byte_array 32 g).length = 32 := by
  intro g
  refine ⟨String.mk (toHexCore (byte_array 32 g)), rfl, ?_, ?_, ?_⟩
  · show (String.mk (toHexCore (byte_array 32 g))).length = 64
    simp [String.length, toHexCore_length, byte_array]
  · have hlt : ∀ b ∈ byte_array 32 g, b < 256 := by
      intro b hb
      simp [byte_array] at hb
      obtain ⟨i, -, rfl⟩ := hb
      exact Nat.mod_lt _ (by norm_num)
    simp [from_hex_string, fromhex_tohex _ hlt]
  · simp [byte_array]

/-- C2: both encode-then-decode round-trips are exact on byte
sequences. -/
theorem claim_C2 : ∀ (bs : List Nat), (∀ b ∈ bs, b < 256) →
    from_hex_string (to_hex_string (some bs)) = .ok (some bs) ∧
    from_base64_string (to_base64_string (some bs)) = .ok (some bs) := by
  intro bs h
  constructor
  · simp [to_hex_string, from_hex_string, fromhex_tohex bs h]
  · have hascii : (b64encodeCore bs).all (fun c => c.toNat < 128) = true := by
      rw [List.all_eq_true]
      intro c hc
      simpa using b64encode_ascii bs c hc
    simp [to_base64_string, from_base64_string, hascii, a2b_b64encode bs h]

/-- C2 witness: the round trips at the two-byte sequence de ad. -/
theorem claim_C2_witness :
    from_hex_string (to_hex_string (some [222, 173])) = .ok (some [222, 173]) ∧
    from_base64_string (to_base64_string (some [222, 173])) = .ok (some [222, 173]) :=
  claim_C2 [222, 173] (by decide)

/-- C4 counterexample: the malformed base64 string consisting of one
exclamation mark is decoded to the empty byte sequence with no error:
the non-strict decoder silently discards characters outside the
alphabet. -/
theorem claim_C4_counterexample : from_base64_string (some "!") = .ok (some []) := rfl

/-- C4 amended: on strings made only of base64 alphabet characters,
from_base64_string fails with binascii.Error exactly when the length is
not a multiple of four; any such error also makes generate_secret_key
fail with the same error.  Strings containing characters outside the
alphabet are not in general rejected: the decoder discards them. -/
theorem claim_C4 :
    (∀ s : String, (∀ c ∈ s.data, (b64DecodeChar c).isSome = true) →
      (from_base64_string (some s) = .error .binasciiError ↔
        ¬ s.data.length % 4 = 0)) ∧
    (∀ (pwd : String) (saltOpt : Option String) (e : PyErr),
      from_base64_string saltOpt = .error e →
      generate_secret_key (some pwd) saltOpt = .error e) := by
  constructor
  · intro s hall
    have hascii : s.data.all (fun c => c.toNat < 128) = true := by
      rw [List.all_eq_true]
      intro c hc
      obtain ⟨v, hv⟩ := Option.isSome_iff_exists.mp (hall c hc)
      simpa using b64DecodeChar_ascii hv
    have h := a2b_alpha s.data hall 0 0 0 (by omega)
    by_cases h0 : s.data.length % 4 = 0
    · obtain ⟨bs, hbs⟩ := h.1 (by omega)
      have heq : from_base64_string (some s) = .ok (some bs) := by
        simp [from_base64_string, hascii, hbs]
      rw [heq]
      constructor
      · intro hcontra; exact absurd hcontra (by simp)
      · intro hneg; exact absurd h0 hneg
    · have herr := h.2 (by omega)
      have heq : from_base64_string (some s) = .error .binasciiError := by
        simp [from_base64_string, hascii, herr]
      rw [heq]
      exact iff_of_true rfl h0
  · intro pwd saltOpt e he
    simp [generate_secret_key, he]

/-- C4 witness: the three-character alphabet string abc fails with
binascii.Error. -/
theorem claim_C4_witness : from_base64_string (some "abc") = .error .binasciiError :=
  (claim_C4.1 "abc" (by decide)).mpr (by decide)

/-- The character chosen for any draw value lies in the password
alphabet. -/
theorem pwchar_mem (v : Nat) :
    passwordCharacters.getD (v % passwordCharacters.length) 'A' ∈ passwordCharacters := by
  have hlt : v % passwordCharacters.length < passwordCharacters.length :=
    Nat.mod_lt _ (by decide)
  rw [List.getD_eq_getElem _ _ hlt]
  exact List.getElem_mem _

/-- C7: for every nonnegative length, password returns exactly that many
characters, each from the 62-character alphanumeric alphabet, and
password 0 is the empty string. -/
theorem claim_C7 : ∀ (n : Int) (g : Nat → Nat), 0 ≤ n →
    ((password n g).length : Int) = n ∧
    (∀ c ∈ (password n g).data, c ∈ passwordCharacters) ∧
    password 0 g = "" := by
  intro n g h
  refine ⟨?_, ?_, rfl⟩
  · have hl : (password n g).length = n.toNat := by
      simp [password, String.length]
    rw [hl, Int.toNat_of_nonneg h]
  · intro c hc
    have hc2 : c ∈ (List.range n.toNat).map
        (fun i => passwordCharacters.getD (g i % passwordCharacters.length) 'A') := hc
    obtain ⟨i, -, rfl⟩ := List.mem_map.mp hc2
    exact pwchar_mem (g i)

/-- C7 witness: the length part of the statement at length 2 with a
constant oracle. -/
theorem claim_C7_witness : ((password 2 (fun _ => 0)).length : Int) = 2 :=
  (claim_C7 2 (fun _ => 0) (by decide)).1

/-! ## Helper lemmas: output lengths of the key derivation -/

/-- SHA-256 always outputs 32 bytes. -/
theorem sha256_length : ∀ m : List Nat, (sha256 m).length = 32 := by
  intro m
  simp [sha256, hash8Bytes, be32]

/-- HMAC-SHA256 always outputs 32 bytes. -/
theorem hmacSha256_length (key msg : List Nat) : (hmacSha256 key msg).length = 32 :=
  sha256_length _

/-- The PBKDF2 xor chain preserves the 32-byte block length. -/
theorem pbkdf2Iter_length (p : List Nat) : ∀ (k : Nat) (u acc : List Nat),
    acc.length = 32 → (pbkdf2Iter p k u acc).length = 32
  | 0, _, _, h => h
  | k + 1, u, acc, h =>
    pbkdf2Iter_length p k _ _ (by
      simp [List.length_zipWith, h, hmacSha256_length])

/-- Every PBKDF2 block is 32 bytes. -/
theorem pbkdf2Block_length (p s : List Nat) (c i : Nat) :
    (pbkdf2Block p s c i).length = 32 :=
  pbkdf2Iter_length p (c - 1) _ _ (hmacSha256_length _ _)

/-- PBKDF2 with a 32-byte request returns exactly 32 bytes. -/
theorem pbkdf2_32 (p s : List Nat) (c : Nat) :
    (pbkdf2HmacSha256 p s c 32).length = 32 := by
  have hb := pbkdf2Block_length p s c 1
  have h1 : (32 + 31) / 32 = 1 := by norm_num
  have hr : List.range 1 = [0] := rfl
  simp [pbkdf2HmacSha256, h1, hr, List.length_take, hb]

/-- C1: for every password and every salt accepted by the base64
decoder, generate_secret_key returns exactly the PBKDF2-HMAC-SHA256 key
with iteration count 1024 and output length 32 bytes over the UTF-8
bytes of the password and the decoded salt bytes; the key is 32 bytes
long.  Determinism of the derivation is immediate: the embedding is a
pure function of the password and salt. -/
theorem claim_C1 : ∀ (pwd saltStr : String) (sb : List Nat),
    from_base64_string (some saltStr) = .ok (some sb) →
    generate_secret_key (some pwd) (some saltStr) =
      .ok (some (pbkdf2HmacSha256 (utf8Encode pwd.data) sb 1024 32)) ∧
    (pbkdf2HmacSha256 (utf8Encode pwd.data) sb 1024 32).length = 32 := by
  intro pwd saltStr sb h
  constructor
  · simp [generate_secret_key, h, SYMMETRIC_PASSWORD_ITERATIONS, SYMMETRIC_KEY_SIZE]
  · exact pbkdf2_32 _ _ _

/-- C1 witness: the length part of the statement at a concrete password
and the salt AAAA, which decodes to three zero bytes. -/
theorem claim_C1_witness :
    (pbkdf2HmacSha256 (utf8Encode "password".data) [0, 0, 0] 1024 32).length = 32 :=
  (claim_C1 "password" "AAAA" [0, 0, 0] (by rfl)).2

end Cryptolite
